import Mathlib

/-!
Verification of the VRPTW constraint-model builder (`src/vrp/vrptw.py`).

The Python program transforms a raw instance record into a `ProblemData`
value (`instance2data`) and then builds a CP Optimizer model
(`vehicle_routing_problem_time_windows`): interval variables for client
visits, optional interval variables for (vehicle, location) pairs, sequence
variables for routes, a no-overlap constraint with a transition-distance
matrix, depot bracketing constraints, alternative (exactly-one-vehicle)
constraints, and a minimization objective.

The embedding below mirrors the source function by function.  Numeric
values are rationals (the Python code manipulates numpy floats; the claims
under study do not depend on floating-point rounding).  The CP Optimizer
constructs used by the source (interval variables, sequence variables,
`no_overlap` with a transition matrix, `first`, `last`, `presence_of`,
`alternative`) are given their documented semantics over explicit
assignments: an interval value is a pair of rational start/end times in
`[0, ∞)`, an absent optional interval carries no value, and a sequence
value is the ordering of the present intervals of its sequence variable.
-/

namespace VRPTW

/-- A raw instance record, as consumed by `instance2data`.  The numpy
arrays of the source become lists of rationals; `edge_weight` is a
(rectangular) matrix given as a list of rows. -/
structure RawInstance where
  demand : List ℚ
  edge_weight : List (List ℚ)
  service_time : List ℚ
  time_window : List (ℚ × ℚ)
  vehicles : ℕ
  capacity : ℚ
deriving DecidableEq

/-- `ProblemData`, mirroring the Python dataclass. -/
structure ProblemData where
  num_vehicles : ℕ
  capacity : ℚ
  num_locations : ℕ
  edge_weights : List (List ℤ)
  service_time : List ℚ
  time_windows : List (ℚ × ℚ)
  demand : List ℚ
deriving DecidableEq

/-- `data.vehicles = range(num_vehicles)` (from `__post_init__`). -/
def ProblemData.vehicles (d : ProblemData) : List ℕ := List.range d.num_vehicles

/-- `data.clients = range(1, num_locations - 1)` (from `__post_init__`). -/
def ProblemData.clients (d : ProblemData) : List ℕ := List.range' 1 (d.num_locations - 2)

/-- `data.locations = range(num_locations)` (from `__post_init__`). -/
def ProblemData.locations (d : ProblemData) : List ℕ := List.range d.num_locations

/-- Entry `m[i][j]` of a rational matrix (defined off the matrix, used only
at in-bounds indices). -/
def mEntry (m : List (List ℚ)) (i j : ℕ) : ℚ := (((m.get? i).getD []).get? j).getD 0

/-- Entry `m[i][j]` of an integer matrix. -/
def matAt (m : List (List ℤ)) (i j : ℕ) : ℤ := (((m.get? i).getD []).get? j).getD 0

/-- Column count of a numpy 2-D array represented as a list of rows. -/
def matCols (m : List (List ℚ)) : ℕ := (m.head?.getD []).length

/-- The `num_locs × num_locs` matrix `distance_matrix` of `instance2data`
after the block copy `distance_matrix[:-1,:-1] = instance["edge_weight"]`
and the end-depot mirror loop, before scaling.  In the success path the
edge-weight matrix is `n × n` with `n = demand.size`, the block copy fills
the top-left `n × n` block, and the loop writes row `n` and column `n`
from row 0 and column 0 of the input. -/
def distance_matrix_pre (inst : RawInstance) : List (List ℚ) :=
  let n := inst.demand.length
  (List.range (n + 1)).map (fun i =>
    (List.range (n + 1)).map (fun j =>
      if i < n ∧ j < n then mEntry inst.edge_weight i j
      else if i = n ∧ j < n then mEntry inst.edge_weight 0 j
      else if j = n ∧ i < n then mEntry inst.edge_weight i 0
      else 0))

/-- `instance2data`.  The two failure conditions model numpy's behaviour on
the source lines that can raise:

* the block assignment `distance_matrix[:-1, :-1] = instance["edge_weight"]`
  raises `ValueError` unless the source array broadcasts into the
  `n × n` target slice, i.e. unless each of its two dimensions equals
  `n` or `1` (a jagged list of rows does not represent a numpy 2-D array
  at all, so it is likewise rejected);
* the mirror loop reads `instance["edge_weight"][0, idx]` and
  `instance["edge_weight"][idx, 0]` for every `idx < n`, raising
  `IndexError` when such an index is out of bounds.

On success the matrix is scaled by 10 and floored
(`np.floor(distance_matrix * 10).astype(int)`), while `service_time` and
`time_window` are multiplied by 10 without flooring. -/
def instance2data (inst : RawInstance) : Except String ProblemData :=
  let n := inst.demand.length
  let num_locs := n + 1
  let ew := inst.edge_weight
  let r := ew.length
  let c := matCols ew
  if ¬ (ew.all (fun row => row.length = c) ∧ (r = n ∨ r = 1) ∧ (c = n ∨ c = 1)) then
    .error "could not broadcast edge_weight into distance matrix block"
  else if ¬ ((List.range n).all (fun idx =>
      decide (0 < r) && decide (idx < c) && decide (idx < r) && decide (0 < c))) then
    .error "edge_weight index out of bounds"
  else
    .ok {
      num_vehicles := inst.vehicles
      capacity := inst.capacity
      num_locations := num_locs
      edge_weights := (distance_matrix_pre inst).map (List.map (fun x => ⌊x * 10⌋))
      service_time := inst.service_time.map (· * 10)
      time_windows := inst.time_window.map (fun tw => (tw.1 * 10, tw.2 * 10))
      demand := inst.demand }

/-! ## The constraint model -/

/-- Identifiers of the interval variables of the model: `T_{i}` for a
client visit and `T_{k}_{i}` for a (vehicle, location) pair. -/
inductive VarId where
  | visit (client : ℕ)
  | vvisit (vehicle : ℕ) (location : ℕ)
deriving DecidableEq

/-- An interval variable declaration: its identifier together with the
attributes the source sets (`size=` at creation, `optional=True`,
`set_start_min`, `set_end_max`).  Attributes left `none` keep the CP
Optimizer defaults. -/
structure IntervalVarDecl where
  id : VarId
  size : Option ℚ
  optional : Bool
  start_min : Option ℚ
  end_max : Option ℚ
deriving DecidableEq

/-- A sequence variable declaration `R_{k}`: the vehicle index (encoded in
its name in the source) and its interval variables, in the order they are
passed to `sequence_var` — that order determines the default CP Optimizer
types used by transition-distance lookups. -/
structure SeqVarDecl where
  vehicle : ℕ
  intervals : List VarId
deriving DecidableEq

/-- The constraints the source adds to the model. -/
inductive Constraint where
  | noOverlap (seqv : SeqVarDecl) (dist : List (List ℤ))
  | presenceEq1 (v : VarId)
  | first (seqv : SeqVarDecl) (v : VarId)
  | last (seqv : SeqVarDecl) (v : VarId)
  | alternative (master : VarId) (members : List VarId)
deriving DecidableEq

/-- The objective set by `minimize_total_travel_time`:
`minimize (sum of end_of(v) for v in end_of_vars) - (sum of service_times)`. -/
structure Objective where
  end_of_vars : List VarId
  service_times : List ℚ
deriving DecidableEq

/-- The built model: interval variables, sequence variables, the
minimization objective and the constraint list. -/
structure CpoModel where
  interval_vars : List IntervalVarDecl
  sequence_vars : List SeqVarDecl
  objective : Objective
  constraints : List Constraint
deriving DecidableEq

/-- `create_visit_variables`: for each client, an interval variable with
`size = data.service_time[client]`, `start_min` the window opening and
`end_max` the window closing plus the service time.  The list accesses
mirror the Python subscripts, which raise on an out-of-range index. -/
def create_visit_variables (data : ProblemData) : Option (List IntervalVarDecl) :=
  data.clients.mapM (fun client => do
    let service_time ← data.service_time.get? client
    let tw ← data.time_windows.get? client
    pure { id := VarId.visit client, size := some service_time, optional := false,
           start_min := some tw.1, end_max := some (tw.2 + service_time) })

/-- `create_vehicle_visit_variables`: an optional interval variable for
every (vehicle, location) pair, with no other attribute. -/
def create_vehicle_visit_variables (data : ProblemData) : List IntervalVarDecl :=
  (data.vehicles.map (fun vehicle =>
    data.locations.map (fun location =>
      { id := VarId.vvisit vehicle location, size := none, optional := true,
        start_min := none, end_max := none : IntervalVarDecl }))).flatten

/-- The sequence variable `R_{vehicle}` over that vehicle's visit
intervals in location order — the value `routes[vehicle]` of the source. -/
def route_var (data : ProblemData) (vehicle : ℕ) : SeqVarDecl :=
  { vehicle := vehicle, intervals := data.locations.map (VarId.vvisit vehicle) }

/-- `create_route_variables`. -/
def create_route_variables (data : ProblemData) : List SeqVarDecl :=
  data.vehicles.map (route_var data)

/-- `minimize_total_travel_time`: minimize the sum of the end times of the
end-depot visit of every vehicle minus the sum of the clients' service
times.  The `data.service_time[i]` subscripts mirror the Python accesses. -/
def minimize_total_travel_time (data : ProblemData) : Option Objective := do
  let last := data.num_locations - 1
  let service_times ← data.clients.mapM (fun i => data.service_time.get? i)
  pure { end_of_vars := data.vehicles.map (fun k => VarId.vvisit k last),
         service_times := service_times }

/-- `no_overlap_between_visits`: `no_overlap(routes[vehicle], edge_weights)`
for every vehicle. -/
def no_overlap_between_visits (data : ProblemData) : List Constraint :=
  data.vehicles.map (fun vehicle => Constraint.noOverlap (route_var data vehicle) data.edge_weights)

/-- `routes_start_and_end_at_depot`: for every vehicle, the presence of its
start-depot (location 0) and end-depot (location `num_locations - 1`)
intervals is forced, the start-depot interval is first and the end-depot
interval is last in the vehicle's sequence. -/
def routes_start_and_end_at_depot (data : ProblemData) : List Constraint :=
  (data.vehicles.map (fun vehicle =>
    [Constraint.presenceEq1 (VarId.vvisit vehicle 0),
     Constraint.presenceEq1 (VarId.vvisit vehicle (data.num_locations - 1)),
     Constraint.first (route_var data vehicle) (VarId.vvisit vehicle 0),
     Constraint.last (route_var data vehicle) (VarId.vvisit vehicle (data.num_locations - 1))])).flatten

/-- `assign_each_client_to_one_vehicle`:
`alternative(visit[client], [vvisits[(k, client)] for k in vehicles])` for
every client. -/
def assign_each_client_to_one_vehicle (data : ProblemData) : List Constraint :=
  data.clients.map (fun client =>
    Constraint.alternative (VarId.visit client)
      (data.vehicles.map (fun k => VarId.vvisit k client)))

/-- `vehicle_routing_problem_time_windows`: assemble the full model. -/
def vehicle_routing_problem_time_windows (data : ProblemData) : Option CpoModel := do
  let visits ← create_visit_variables data
  let vvisits := create_vehicle_visit_variables data
  let routes := create_route_variables data
  let objective ← minimize_total_travel_time data
  pure { interval_vars := visits ++ vvisits,
         sequence_vars := routes,
         objective := objective,
         constraints :=
           no_overlap_between_visits data
           ++ routes_start_and_end_at_depot data
           ++ assign_each_client_to_one_vehicle data }

/-! ## Semantics of the model -/

/-- The value of a present interval variable: a start and an end time. -/
structure IntervalVal where
  start : ℚ
  stop : ℚ
deriving DecidableEq

/-- An assignment: each interval variable is absent (`none`) or carries an
interval value; each sequence variable (keyed by vehicle) carries an
ordering of its present intervals. -/
structure Assignment where
  itv : VarId → Option IntervalVal
  seq : ℕ → List VarId

/-- Start time of a variable (meaningful when present). -/
def startOf (a : Assignment) (v : VarId) : ℚ := ((a.itv v).getD ⟨0, 0⟩).start

/-- End time of a variable (meaningful when present). -/
def endOf (a : Assignment) (v : VarId) : ℚ := ((a.itv v).getD ⟨0, 0⟩).stop

/-- Intrinsic satisfaction of one interval variable declaration.  A
non-optional variable must be present.  A present interval lies in the CP
Optimizer default time domain `[0, ∞)`, has nonnegative length, and obeys
the declared fixed size, minimal start and maximal end. -/
def declSat (a : Assignment) (dv : IntervalVarDecl) : Bool :=
  match a.itv dv.id with
  | none => dv.optional
  | some I =>
      decide (0 ≤ I.start) && decide (I.start ≤ I.stop)
      && dv.size.all (fun s => decide (I.stop = I.start + s))
      && dv.start_min.all (fun s => decide (s ≤ I.start))
      && dv.end_max.all (fun e => decide (I.stop ≤ e))

/-- Satisfaction of a sequence variable declaration: the sequence value is
an ordering of exactly the present intervals of the variable. -/
def seqSat (a : Assignment) (sv : SeqVarDecl) : Bool :=
  (a.seq sv.vehicle).isPerm (sv.intervals.filter (fun v => (a.itv v).isSome))

/-- Position of an interval variable in the list passed to
`sequence_var` — the default CP Optimizer type of that interval. -/
def posIn (v : VarId) : List VarId → ℕ
  | [] => 0
  | w :: ws => if w = v then 0 else posIn v ws + 1

/-- Boolean pairwise check over a list. -/
def pairwiseB (p : α → α → Bool) : List α → Bool
  | [] => true
  | x :: xs => xs.all (p x) && pairwiseB p xs

/-- Satisfaction of one constraint.

* `noOverlap` (CP Optimizer `no_overlap(seq, M)` with `is_direct=False`):
  for any interval before another in the sequence, the first ends no later
  than the second starts, and the transition distance `M[type a][type b]`
  separates the end of the first from the start of the second.
* `presenceEq1`: `presence_of(v) == 1`.
* `first`/`last`: if the interval is present it is the first (resp. last)
  interval of the sequence.
* `alternative(master, members)`: if the master is absent all members are
  absent; if it is present, exactly one member is present and that member
  starts and ends with the master. -/
def conSat (a : Assignment) : Constraint → Bool
  | Constraint.noOverlap sv dist =>
      pairwiseB (fun p q =>
        decide (endOf a p ≤ startOf a q) &&
        decide (endOf a p + ((matAt dist (posIn p sv.intervals) (posIn q sv.intervals) : ℤ) : ℚ)
          ≤ startOf a q)) (a.seq sv.vehicle)
  | Constraint.presenceEq1 v => (a.itv v).isSome
  | Constraint.first sv v =>
      !(a.itv v).isSome || decide ((a.seq sv.vehicle).head? = some v)
  | Constraint.last sv v =>
      !(a.itv v).isSome || decide ((a.seq sv.vehicle).getLast? = some v)
  | Constraint.alternative m ms =>
      match a.itv m with
      | none => ms.all (fun v => (a.itv v).isNone)
      | some I =>
          match ms.filter (fun v => (a.itv v).isSome) with
          | [v] => decide (a.itv v = some I)
          | _ => false

/-- A feasible assignment: every declared variable and every constraint of
the model is satisfied. -/
def feasible (m : CpoModel) (a : Assignment) : Bool :=
  m.interval_vars.all (declSat a) &&
  m.sequence_vars.all (seqSat a) &&
  m.constraints.all (conSat a)

/-- Value of the model's objective expression under an assignment. -/
def objValue (m : CpoModel) (a : Assignment) : ℚ :=
  (m.objective.end_of_vars.map (endOf a)).sum - m.objective.service_times.sum

/-- Location index carried by a variable identifier. -/
def locOf : VarId → ℕ
  | VarId.visit i => i
  | VarId.vvisit _ i => i

/-! ## Example instance used to witness the claim theorems -/

/-- A small `ProblemData`: one vehicle, three locations (start depot,
one client, end depot), zero travel times, client service time 2. -/
def exData : ProblemData where
  num_vehicles := 1
  capacity := 100
  num_locations := 3
  edge_weights := [[0,0,0],[0,0,0],[0,0,0]]
  service_time := [0, 2]
  time_windows := [(0,100),(0,100)]
  demand := [0, 1]

/-- The model built from `exData`. -/
def exModel : CpoModel := (vehicle_routing_problem_time_windows exData).getD ⟨[], [], ⟨[], []⟩, []⟩

/-- An assignment serving the single client of `exData` with vehicle 0. -/
def exA : Assignment where
  itv := fun v =>
    match v with
    | VarId.visit 1 => some ⟨0, 2⟩
    | VarId.vvisit 0 0 => some ⟨0, 0⟩
    | VarId.vvisit 0 1 => some ⟨0, 2⟩
    | VarId.vvisit 0 2 => some ⟨2, 2⟩
    | _ => none
  seq := fun _ => [VarId.vvisit 0 0, VarId.vvisit 0 1, VarId.vvisit 0 2]

/-- Sanity check: the example model is genuinely satisfiable, so claims
quantifying over its feasible assignments are not vacuous. -/
theorem exA_feasible : feasible exModel exA = true := by with_unfolding_all decide

/-! ## Helper lemmas -/

theorem mapM_eq_some_forall₂ {f : α → Option β} :
    ∀ {l : List α} {ys : List β}, l.mapM f = some ys →
      List.Forall₂ (fun x y => f x = some y) l ys := by
  intro l
  induction l with
  | nil => intro ys h; simp only [List.mapM_nil, pure] at h; cases h; exact List.Forall₂.nil
  | cons x xs ih =>
    intro ys h
    rw [List.mapM_cons] at h
    cases hx : f x with
    | none => rw [hx] at h; simp [Option.bind] at h
    | some y =>
      rw [hx] at h
      cases hxs : xs.mapM f with
      | none => rw [hxs] at h; simp [Option.bind] at h
      | some zs =>
        rw [hxs] at h
        simp only [Option.bind_some, Option.map_some, Option.some.injEq, pure] at h
        cases h
        exact List.Forall₂.cons hx (ih hxs)

theorem mapM_isSome {f : α → Option β} :
    ∀ {l : List α}, (∀ x ∈ l, (f x).isSome = true) → (l.mapM f).isSome = true := by
  intro l
  induction l with
  | nil => intro _; rfl
  | cons x xs ih =>
    intro h
    rw [List.mapM_cons]
    have hx := h x (List.mem_cons_self x xs)
    cases hfx : f x with
    | none => rw [hfx] at hx; simp at hx
    | some y =>
      have hxs := ih (fun z hz => h z (List.mem_cons_of_mem x hz))
      cases hmx : xs.mapM f with
      | none => rw [hmx] at hxs; simp at hxs
      | some zs => simp [Option.bind]

theorem forall₂_mem_left {R : α → β → Prop} :
    ∀ {l : List α} {ys : List β}, List.Forall₂ R l ys → ∀ x ∈ l, ∃ y ∈ ys, R x y := by
  intro l ys h
  induction h with
  | nil => intro x hx; cases hx
  | cons hr _ ih =>
    intro x hx
    rcases List.mem_cons.1 hx with rfl | hx
    · exact ⟨_, List.mem_cons_self _ _, hr⟩
    · rcases ih x hx with ⟨y, hy, hxy⟩
      exact ⟨y, List.mem_cons_of_mem _ hy, hxy⟩

/-- Decomposition of a successful `vehicle_routing_problem_time_windows`. -/
theorem build_eq {d : ProblemData} {m : CpoModel}
    (hm : vehicle_routing_problem_time_windows d = some m) :
    ∃ visits objective,
      create_visit_variables d = some visits
      ∧ minimize_total_travel_time d = some objective
      ∧ m = { interval_vars := visits ++ create_vehicle_visit_variables d,
              sequence_vars := create_route_variables d,
              objective := objective,
              constraints :=
                no_overlap_between_visits d
                ++ routes_start_and_end_at_depot d
                ++ assign_each_client_to_one_vehicle d } := by
  unfold vehicle_routing_problem_time_windows at hm
  cases hv : create_visit_variables d with
  | none => rw [hv] at hm; simp [Option.bind] at hm
  | some visits =>
    rw [hv] at hm
    cases ho : minimize_total_travel_time d with
    | none => rw [ho] at hm; simp [Option.bind] at hm
    | some objective =>
      rw [ho] at hm
      simp only [bind, Option.bind, pure, Option.some.injEq] at hm
      exact ⟨visits, objective, rfl, rfl, hm.symm⟩

theorem feasible_interval {m : CpoModel} {a : Assignment} (h : feasible m a = true)
    {dv : IntervalVarDecl} (hdv : dv ∈ m.interval_vars) : declSat a dv = true := by
  unfold feasible at h
  simp only [Bool.and_eq_true, List.all_eq_true] at h
  exact h.1.1 dv hdv

theorem feasible_seq {m : CpoModel} {a : Assignment} (h : feasible m a = true)
    {sv : SeqVarDecl} (hsv : sv ∈ m.sequence_vars) : seqSat a sv = true := by
  unfold feasible at h
  simp only [Bool.and_eq_true, List.all_eq_true] at h
  exact h.1.2 sv hsv

theorem feasible_con {m : CpoModel} {a : Assignment} (h : feasible m a = true)
    {con : Constraint} (hcon : con ∈ m.constraints) : conSat a con = true := by
  unfold feasible at h
  simp only [Bool.and_eq_true, List.all_eq_true] at h
  exact h.2 con hcon

/-- A present interval of a satisfied declaration obeys all its bounds. -/
theorem declSat_some {a : Assignment} {dv : IntervalVarDecl} {I : IntervalVal}
    (h : declSat a dv = true) (hI : a.itv dv.id = some I) :
    0 ≤ I.start ∧ I.start ≤ I.stop
    ∧ (∀ s, dv.size = some s → I.stop = I.start + s)
    ∧ (∀ s, dv.start_min = some s → s ≤ I.start)
    ∧ (∀ e, dv.end_max = some e → I.stop ≤ e) := by
  unfold declSat at h
  rw [hI] at h
  simp only [Bool.and_eq_true, decide_eq_true_eq] at h
  refine ⟨h.1.1.1.1, h.1.1.1.2, ?_, ?_, ?_⟩
  · intro s hs; rw [hs] at h; simpa using h.1.1.2
  · intro s hs; rw [hs] at h; simpa using h.1.2
  · intro e he; rw [he] at h; simpa using h.2

/-- A satisfied non-optional interval variable is present. -/
theorem declSat_present {a : Assignment} {dv : IntervalVarDecl}
    (h : declSat a dv = true) (hopt : dv.optional = false) :
    ∃ I, a.itv dv.id = some I := by
  unfold declSat at h
  cases hv : a.itv dv.id with
  | none => rw [hv] at h; rw [hopt] at h; cases h
  | some I => exact ⟨I, rfl⟩

theorem pairwiseB_iff {p : α → α → Bool} :
    ∀ {l : List α}, pairwiseB p l = true ↔ List.Pairwise (fun x y => p x y = true) l := by
  intro l
  induction l with
  | nil => simp [pairwiseB]
  | cons x xs ih =>
    simp [pairwiseB, List.pairwise_cons, ih, List.all_eq_true, and_comm]

theorem seqSat_perm {a : Assignment} {sv : SeqVarDecl} (h : seqSat a sv = true) :
    List.Perm (a.seq sv.vehicle) (sv.intervals.filter (fun v => (a.itv v).isSome)) :=
  List.isPerm_iff.1 h

theorem conSat_presence {a : Assignment} {v : VarId}
    (h : conSat a (Constraint.presenceEq1 v) = true) : (a.itv v).isSome = true := h

theorem conSat_head {a : Assignment} {sv : SeqVarDecl} {v : VarId}
    (h : conSat a (Constraint.first sv v) = true) (hp : (a.itv v).isSome = true) :
    (a.seq sv.vehicle).head? = some v := by
  simp only [conSat, hp] at h
  simpa using h

theorem conSat_getLast {a : Assignment} {sv : SeqVarDecl} {v : VarId}
    (h : conSat a (Constraint.last sv v) = true) (hp : (a.itv v).isSome = true) :
    (a.seq sv.vehicle).getLast? = some v := by
  simp only [conSat, hp] at h
  simpa using h

theorem conSat_alternative_some {a : Assignment} {mv : VarId} {ms : List VarId} {I : IntervalVal}
    (h : conSat a (Constraint.alternative mv ms) = true) (hI : a.itv mv = some I) :
    ∃ v, ms.filter (fun w => (a.itv w).isSome) = [v] ∧ a.itv v = some I := by
  simp only [conSat, hI] at h
  cases hf : ms.filter (fun w => (a.itv w).isSome) with
  | nil => rw [hf] at h; cases h
  | cons v t =>
    cases t with
    | nil =>
      rw [hf] at h
      exact ⟨v, rfl, of_decide_eq_true h⟩
    | cons w t' => rw [hf] at h; cases h

theorem conSat_noOverlap {a : Assignment} {sv : SeqVarDecl} {dist : List (List ℤ)}
    (h : conSat a (Constraint.noOverlap sv dist) = true) :
    List.Pairwise (fun p q =>
      endOf a p ≤ startOf a q
      ∧ endOf a p + ((matAt dist (posIn p sv.intervals) (posIn q sv.intervals) : ℤ) : ℚ)
          ≤ startOf a q) (a.seq sv.vehicle) := by
  simp only [conSat] at h
  rw [pairwiseB_iff] at h
  refine h.imp ?_
  intro p q hpq
  simp only [Bool.and_eq_true, decide_eq_true_eq] at hpq
  exact hpq

theorem posIn_range' (k : ℕ) :
    ∀ (n s i : ℕ), s ≤ i → i < s + n →
      posIn (VarId.vvisit k i) ((List.range' s n).map (VarId.vvisit k)) = i - s := by
  intro n
  induction n with
  | zero => intro s i h1 h2; omega
  | succ n ih =>
    intro s i h1 h2
    rw [List.range'_succ, List.map_cons]
    by_cases hsi : s = i
    · simp [posIn, hsi]
    · have hne : VarId.vvisit k s ≠ VarId.vvisit k i := by
        simp only [ne_eq, VarId.vvisit.injEq]
        exact fun hh => hsi hh.2
      simp only [posIn, if_neg hne]
      rw [ih (s + 1) i (by omega) (by omega)]
      omega

theorem posIn_locations {d : ProblemData} {k i : ℕ} (hi : i < d.num_locations) :
    posIn (VarId.vvisit k i) (d.locations.map (VarId.vvisit k)) = i := by
  unfold ProblemData.locations
  rw [List.range_eq_range']
  have := posIn_range' k d.num_locations 0 i (Nat.zero_le i) (by omega)
  simpa using this

theorem mem_clients {d : ProblemData} {c : ℕ} :
    c ∈ d.clients ↔ 1 ≤ c ∧ c < d.num_locations - 1 := by
  unfold ProblemData.clients
  rw [List.mem_range']
  constructor
  · rintro ⟨i, hi, rfl⟩; omega
  · rintro ⟨h1, h2⟩; exact ⟨c - 1, by omega, by omega⟩

theorem mem_locations {d : ProblemData} {i : ℕ} :
    i ∈ d.locations ↔ i < d.num_locations := List.mem_range

theorem mem_vehicles {d : ProblemData} {k : ℕ} :
    k ∈ d.vehicles ↔ k < d.num_vehicles := List.mem_range

theorem vvisit_decl_mem {d : ProblemData} {k i : ℕ}
    (hk : k ∈ d.vehicles) (hi : i ∈ d.locations) :
    ({ id := VarId.vvisit k i, size := none, optional := true,
       start_min := none, end_max := none } : IntervalVarDecl)
      ∈ create_vehicle_visit_variables d := by
  unfold create_vehicle_visit_variables
  rw [List.mem_flatten]
  exact ⟨_, List.mem_map_of_mem _ hk, List.mem_map_of_mem _ hi⟩

theorem visit_decl_spec {d : ProblemData} {visits : List IntervalVarDecl}
    (hv : create_visit_variables d = some visits) {c : ℕ} (hc : c ∈ d.clients) :
    ∃ st tw, d.service_time.get? c = some st ∧ d.time_windows.get? c = some tw ∧
      ({ id := VarId.visit c, size := some st, optional := false,
         start_min := some tw.1, end_max := some (tw.2 + st) } : IntervalVarDecl) ∈ visits := by
  obtain ⟨dv, hdv, hfc⟩ := forall₂_mem_left (mapM_eq_some_forall₂ hv) c hc
  cases hst : d.service_time.get? c with
  | none => rw [hst] at hfc; simp [bind, Option.bind] at hfc
  | some st =>
    rw [hst] at hfc
    cases htw : d.time_windows.get? c with
    | none => rw [htw] at hfc; simp [bind, Option.bind] at hfc
    | some tw =>
      rw [htw] at hfc
      simp only [bind, Option.bind, pure, Option.some.injEq] at hfc
      exact ⟨st, tw, rfl, rfl, hfc ▸ hdv⟩

theorem route_var_mem {d : ProblemData} {k : ℕ} (hk : k ∈ d.vehicles) :
    route_var d k ∈ create_route_variables d := List.mem_map_of_mem _ hk

/-- Semantic core of the alternative constraints: each client's visit
interval is present, and exactly one vehicle's optional copy of the client
is present, carrying the same interval value. -/
theorem client_assignment {d : ProblemData} {m : CpoModel} {a : Assignment}
    (hm : vehicle_routing_problem_time_windows d = some m)
    (hf : feasible m a = true) {c : ℕ} (hc : c ∈ d.clients) :
    ∃ I k, a.itv (VarId.visit c) = some I
      ∧ (∀ s, d.service_time.get? c = some s → I.stop = I.start + s)
      ∧ k ∈ d.vehicles
      ∧ a.itv (VarId.vvisit k c) = some I
      ∧ ∀ k', k' ∈ d.vehicles → k' ≠ k → a.itv (VarId.vvisit k' c) = none := by
  obtain ⟨visits, obj, hv, ho, hmEq⟩ := build_eq hm
  subst hmEq
  obtain ⟨st, tw, hst, htw, hdecl⟩ := visit_decl_spec hv hc
  have hds := feasible_interval hf (List.mem_append_left _ hdecl)
  obtain ⟨I, hI⟩ := declSat_present hds rfl
  have hsize := ((declSat_some hds hI).2.2.1) st rfl
  have hcon : Constraint.alternative (VarId.visit c)
      (d.vehicles.map (fun k => VarId.vvisit k c))
      ∈ no_overlap_between_visits d ++ routes_start_and_end_at_depot d
        ++ assign_each_client_to_one_vehicle d := by
    simp only [List.mem_append]
    refine Or.inr ?_
    unfold assign_each_client_to_one_vehicle
    exact List.mem_map_of_mem _ hc
  obtain ⟨w, hfilter, hw⟩ := conSat_alternative_some (feasible_con hf hcon) hI
  have hwmem : w ∈ d.vehicles.map (fun k => VarId.vvisit k c) := by
    have : w ∈ (d.vehicles.map (fun k => VarId.vvisit k c)).filter
        (fun v => (a.itv v).isSome) := by
      rw [hfilter]; exact List.mem_singleton.2 rfl
    exact (List.mem_filter.1 this).1
  obtain ⟨k, hk, hkw⟩ := List.mem_map.1 hwmem
  subst hkw
  refine ⟨I, k, hI, ?_, hk, hw, ?_⟩
  · intro s hs
    rw [hst] at hs
    cases hs
    exact hsize
  · intro k' hk' hne
    by_contra habs
    have hsome : (a.itv (VarId.vvisit k' c)).isSome = true := by
      cases hx : a.itv (VarId.vvisit k' c) with
      | none => exact absurd hx habs
      | some J => rfl
    have : VarId.vvisit k' c ∈ (d.vehicles.map (fun k => VarId.vvisit k c)).filter
        (fun v => (a.itv v).isSome) :=
      List.mem_filter.2 ⟨List.mem_map_of_mem _ hk', hsome⟩
    rw [hfilter] at this
    have heq := List.mem_singleton.1 this
    simp only [VarId.vvisit.injEq] at heq
    exact hne heq.1

theorem depot_con_mem {d : ProblemData} {k : ℕ} (hk : k ∈ d.vehicles) {con : Constraint}
    (hcon : con ∈ [Constraint.presenceEq1 (VarId.vvisit k 0),
      Constraint.presenceEq1 (VarId.vvisit k (d.num_locations - 1)),
      Constraint.first (route_var d k) (VarId.vvisit k 0),
      Constraint.last (route_var d k) (VarId.vvisit k (d.num_locations - 1))]) :
    con ∈ routes_start_and_end_at_depot d := by
  unfold routes_start_and_end_at_depot
  exact List.mem_flatten_of_mem (List.mem_map_of_mem _ hk) hcon

/-- Structure of the elements of a feasible sequence value: they are the
present vehicle-visit intervals of the route, each with a well-formed
value in `[0, ∞)`. -/
theorem seq_elem_wf {d : ProblemData} {m : CpoModel} {a : Assignment}
    (hm : vehicle_routing_problem_time_windows d = some m) (hf : feasible m a = true)
    {k : ℕ} (hk : k ∈ d.vehicles) :
    List.Perm (a.seq k) ((route_var d k).intervals.filter (fun v => (a.itv v).isSome))
    ∧ ∀ p ∈ a.seq k, ∃ i, p = VarId.vvisit k i ∧ i < d.num_locations
        ∧ ∃ I, a.itv p = some I ∧ 0 ≤ I.start ∧ I.start ≤ I.stop := by
  obtain ⟨visits, obj, hv, ho, hmEq⟩ := build_eq hm
  subst hmEq
  have hperm := seqSat_perm (feasible_seq hf (route_var_mem hk))
  refine ⟨hperm, ?_⟩
  intro p hp
  have hpf := hperm.mem_iff.1 hp
  have hpmem := (List.mem_filter.1 hpf).1
  have hpsome := (List.mem_filter.1 hpf).2
  obtain ⟨i, hi, hpi⟩ := List.mem_map.1 hpmem
  refine ⟨i, hpi.symm, mem_locations.1 hi, ?_⟩
  cases hI : a.itv p with
  | none => rw [hI] at hpsome; cases hpsome
  | some I =>
    have hds := feasible_interval hf
      (List.mem_append_right visits (vvisit_decl_mem hk hi))
    have hI' : a.itv (VarId.vvisit k i) = some I := by rw [hpi]; exact hI
    have hprops := declSat_some hds hI'
    exact ⟨I, rfl, hprops.1, hprops.2.1⟩

/-- C1: for every client, the built model contains the alternative
constraint linking the client's visit interval to its per-vehicle optional
intervals, and in every feasible assignment exactly one of those optional
intervals (across all vehicles) is present, coinciding in start and end
with the client's visit interval. -/
theorem C1_exactly_one_vehicle_per_client (d : ProblemData) (m : CpoModel) (c : ℕ)
    (hm : vehicle_routing_problem_time_windows d = some m) (hc : c ∈ d.clients) :
    Constraint.alternative (VarId.visit c) (d.vehicles.map (fun k => VarId.vvisit k c))
      ∈ m.constraints
    ∧ ∀ a : Assignment, feasible m a = true →
        ∃ I : IntervalVal, a.itv (VarId.visit c) = some I
          ∧ ∃ k, k ∈ d.vehicles ∧ a.itv (VarId.vvisit k c) = some I
          ∧ ∀ k', k' ∈ d.vehicles → k' ≠ k → a.itv (VarId.vvisit k' c) = none := by
  constructor
  · obtain ⟨visits, obj, hv, ho, hmEq⟩ := build_eq hm
    subst hmEq
    simp only [List.mem_append]
    refine Or.inr ?_
    unfold assign_each_client_to_one_vehicle
    exact List.mem_map_of_mem _ hc
  · intro a hf
    obtain ⟨I, k, hI, _, hk, hkI, huniq⟩ := client_assignment hm hf hc
    exact ⟨I, hI, k, hk, hkI, huniq⟩

/-- C1 witness: the theorem applied to the concrete example instance. -/
theorem C1_witness :
    Constraint.alternative (VarId.visit 1) (exData.vehicles.map (fun k => VarId.vvisit k 1))
      ∈ exModel.constraints
    ∧ ∀ a : Assignment, feasible exModel a = true →
        ∃ I : IntervalVal, a.itv (VarId.visit 1) = some I
          ∧ ∃ k, k ∈ exData.vehicles ∧ a.itv (VarId.vvisit k 1) = some I
          ∧ ∀ k', k' ∈ exData.vehicles → k' ≠ k → a.itv (VarId.vvisit k' 1) = none :=
  C1_exactly_one_vehicle_per_client exData exModel 1 (by with_unfolding_all rfl) (by decide)

/-- C2: for every vehicle, the model forces presence of its start-depot and
end-depot intervals and constrains its route ordering to begin with the
start-depot interval and end with the end-depot interval; the route value
orders exactly the vehicle's present intervals. -/
theorem C2_routes_start_and_end_at_depot (d : ProblemData) (m : CpoModel) (k : ℕ)
    (hm : vehicle_routing_problem_time_windows d = some m) (hk : k ∈ d.vehicles) :
    Constraint.presenceEq1 (VarId.vvisit k 0) ∈ m.constraints
    ∧ Constraint.presenceEq1 (VarId.vvisit k (d.num_locations - 1)) ∈ m.constraints
    ∧ Constraint.first (route_var d k) (VarId.vvisit k 0) ∈ m.constraints
    ∧ Constraint.last (route_var d k) (VarId.vvisit k (d.num_locations - 1)) ∈ m.constraints
    ∧ ∀ a : Assignment, feasible m a = true →
        (a.itv (VarId.vvisit k 0)).isSome = true
        ∧ (a.itv (VarId.vvisit k (d.num_locations - 1))).isSome = true
        ∧ (a.seq k).head? = some (VarId.vvisit k 0)
        ∧ (a.seq k).getLast? = some (VarId.vvisit k (d.num_locations - 1))
        ∧ List.Perm (a.seq k)
            ((route_var d k).intervals.filter (fun v => (a.itv v).isSome)) := by
  have hperm0 := fun (a : Assignment) (hf : feasible m a = true) =>
    (seq_elem_wf hm hf hk).1
  obtain ⟨visits, obj, hv, ho, hmEq⟩ := build_eq hm
  have hmem : ∀ con ∈ [Constraint.presenceEq1 (VarId.vvisit k 0),
      Constraint.presenceEq1 (VarId.vvisit k (d.num_locations - 1)),
      Constraint.first (route_var d k) (VarId.vvisit k 0),
      Constraint.last (route_var d k) (VarId.vvisit k (d.num_locations - 1))],
      con ∈ m.constraints := by
    intro con hcon
    rw [hmEq]
    simp only [List.mem_append]
    exact Or.inl (Or.inr (depot_con_mem hk hcon))
  have m1 := hmem (Constraint.presenceEq1 (VarId.vvisit k 0)) (by simp)
  have m2 := hmem (Constraint.presenceEq1 (VarId.vvisit k (d.num_locations - 1))) (by simp)
  have m3 := hmem (Constraint.first (route_var d k) (VarId.vvisit k 0)) (by simp)
  have m4 := hmem (Constraint.last (route_var d k)
    (VarId.vvisit k (d.num_locations - 1))) (by simp)
  refine ⟨m1, m2, m3, m4, ?_⟩
  intro a hf
  have h1 := conSat_presence (feasible_con hf m1)
  have h2 := conSat_presence (feasible_con hf m2)
  have h3 := conSat_head (feasible_con hf m3) h1
  have h4 := conSat_getLast (feasible_con hf m4) h2
  exact ⟨h1, h2, h3, h4, hperm0 a hf⟩

/-- C2 witness: the theorem applied to the concrete example instance. -/
theorem C2_witness :
    Constraint.presenceEq1 (VarId.vvisit 0 0) ∈ exModel.constraints
    ∧ Constraint.presenceEq1 (VarId.vvisit 0 (exData.num_locations - 1)) ∈ exModel.constraints
    ∧ Constraint.first (route_var exData 0) (VarId.vvisit 0 0) ∈ exModel.constraints
    ∧ Constraint.last (route_var exData 0) (VarId.vvisit 0 (exData.num_locations - 1))
        ∈ exModel.constraints
    ∧ ∀ a : Assignment, feasible exModel a = true →
        (a.itv (VarId.vvisit 0 0)).isSome = true
        ∧ (a.itv (VarId.vvisit 0 (exData.num_locations - 1))).isSome = true
        ∧ (a.seq 0).head? = some (VarId.vvisit 0 0)
        ∧ (a.seq 0).getLast? = some (VarId.vvisit 0 (exData.num_locations - 1))
        ∧ List.Perm (a.seq 0)
            ((route_var exData 0).intervals.filter (fun v => (a.itv v).isSome)) :=
  C2_routes_start_and_end_at_depot exData exModel 0 (by with_unfolding_all rfl) (by decide)

/-- C3: for every vehicle, the model contains the no-overlap constraint
with the travel-time matrix over that vehicle's route; in every feasible
assignment no two of the vehicle's present intervals overlap, and between
any two consecutively ordered present intervals at locations `i` and `j`
the second starts no earlier than the end of the first plus
`edge_weights[i][j]`. -/
theorem C3_no_overlap_with_transition (d : ProblemData) (m : CpoModel) (k : ℕ)
    (hm : vehicle_routing_problem_time_windows d = some m) (hk : k ∈ d.vehicles) :
    Constraint.noOverlap (route_var d k) d.edge_weights ∈ m.constraints
    ∧ ∀ a : Assignment, feasible m a = true →
        (∀ p ∈ a.seq k, ∀ q ∈ a.seq k, p ≠ q →
            endOf a p ≤ startOf a q ∨ endOf a q ≤ startOf a p)
        ∧ (∀ p ∈ a.seq k, startOf a p ≤ endOf a p)
        ∧ List.Chain' (fun p q =>
            endOf a p + ((matAt d.edge_weights (locOf p) (locOf q) : ℤ) : ℚ) ≤ startOf a q)
            (a.seq k)
        ∧ List.Perm (a.seq k)
            ((route_var d k).intervals.filter (fun v => (a.itv v).isSome)) := by
  have hcmem : Constraint.noOverlap (route_var d k) d.edge_weights ∈ m.constraints := by
    obtain ⟨visits, obj, hv, ho, hmEq⟩ := build_eq hm
    subst hmEq
    simp only [List.mem_append]
    refine Or.inl (Or.inl ?_)
    unfold no_overlap_between_visits
    exact List.mem_map_of_mem _ hk
  refine ⟨hcmem, ?_⟩
  intro a hf
  obtain ⟨hperm, hwf⟩ := seq_elem_wf hm hf hk
  have hpw := conSat_noOverlap (feasible_con hf hcmem)
  have hloc : ∀ p ∈ a.seq k, posIn p (route_var d k).intervals = locOf p := by
    intro p hp
    obtain ⟨i, rfl, hi, _⟩ := hwf p hp
    unfold route_var
    rw [posIn_locations hi]
    rfl
  refine ⟨?_, ?_, ?_, hperm⟩
  · have h2 : List.Pairwise
        (fun p q => endOf a p ≤ startOf a q ∨ endOf a q ≤ startOf a p) (a.seq k) :=
      hpw.imp (fun h => Or.inl h.1)
    exact fun p hp q hq hne =>
      List.Pairwise.forall (fun x y h => h.symm) h2 hp hq hne
  · intro p hp
    obtain ⟨i, rfl, hi, I, hI, _, hwfI⟩ := hwf p hp
    unfold startOf endOf
    rw [hI]
    exact hwfI
  · have h3 : List.Pairwise (fun p q =>
        endOf a p + ((matAt d.edge_weights (locOf p) (locOf q) : ℤ) : ℚ) ≤ startOf a q)
        (a.seq k) := by
      refine hpw.imp_of_mem ?_
      intro p q hp hq hr
      rw [hloc p hp, hloc q hq] at hr
      exact hr.2
    exact h3.chain'

/-- C3 witness: the theorem applied to the concrete example instance. -/
theorem C3_witness :
    Constraint.noOverlap (route_var exData 0) exData.edge_weights ∈ exModel.constraints
    ∧ ∀ a : Assignment, feasible exModel a = true →
        (∀ p ∈ a.seq 0, ∀ q ∈ a.seq 0, p ≠ q →
            endOf a p ≤ startOf a q ∨ endOf a q ≤ startOf a p)
        ∧ (∀ p ∈ a.seq 0, startOf a p ≤ endOf a p)
        ∧ List.Chain' (fun p q =>
            endOf a p + ((matAt exData.edge_weights (locOf p) (locOf q) : ℤ) : ℚ)
              ≤ startOf a q) (a.seq 0)
        ∧ List.Perm (a.seq 0)
            ((route_var exData 0).intervals.filter (fun v => (a.itv v).isSome)) :=
  C3_no_overlap_with_transition exData exModel 0 (by with_unfolding_all rfl) (by decide)

/-- C8: each client's visit interval variable has fixed duration equal to
the client's service time, minimal start the window opening and maximal end
the window closing plus the duration; hence in every feasible assignment
the visit starts inside the window and ends exactly after its duration. -/
theorem C8_visit_variable_time_window (d : ProblemData) (m : CpoModel) (c : ℕ)
    (hm : vehicle_routing_problem_time_windows d = some m) (hc : c ∈ d.clients) :
    ∃ st tw, d.service_time.get? c = some st ∧ d.time_windows.get? c = some tw
      ∧ (⟨VarId.visit c, some st, false, some tw.1, some (tw.2 + st)⟩ : IntervalVarDecl)
          ∈ m.interval_vars
      ∧ ∀ a : Assignment, feasible m a = true →
          ∃ I : IntervalVal, a.itv (VarId.visit c) = some I
            ∧ tw.1 ≤ I.start ∧ I.start ≤ tw.2
            ∧ I.stop = I.start + st ∧ I.stop ≤ tw.2 + st := by
  obtain ⟨visits, obj, hv, ho, hmEq⟩ := build_eq hm
  subst hmEq
  obtain ⟨st, tw, hst, htw, hdecl⟩ := visit_decl_spec hv hc
  refine ⟨st, tw, hst, htw, List.mem_append_left _ hdecl, ?_⟩
  intro a hf
  have hds := feasible_interval hf (List.mem_append_left _ hdecl)
  obtain ⟨I, hI⟩ := declSat_present hds rfl
  obtain ⟨h0, hle, hsz, hsm, hem⟩ := declSat_some hds hI
  have hsize := hsz st rfl
  have hstart := hsm tw.1 rfl
  have hend := hem (tw.2 + st) rfl
  refine ⟨I, hI, hstart, ?_, hsize, hend⟩
  have h2 := hend
  rw [hsize] at h2
  linarith

/-- C8 witness: the theorem applied to the concrete example instance. -/
theorem C8_witness :
    ∃ st tw, exData.service_time.get? 1 = some st ∧ exData.time_windows.get? 1 = some tw
      ∧ (⟨VarId.visit 1, some st, false, some tw.1, some (tw.2 + st)⟩ : IntervalVarDecl)
          ∈ exModel.interval_vars
      ∧ ∀ a : Assignment, feasible exModel a = true →
          ∃ I : IntervalVal, a.itv (VarId.visit 1) = some I
            ∧ tw.1 ≤ I.start ∧ I.start ≤ tw.2
            ∧ I.stop = I.start + st ∧ I.stop ≤ tw.2 + st :=
  C8_visit_variable_time_window exData exModel 1 (by with_unfolding_all rfl) (by decide)

/-- C9: no constraint or objective of the built model depends on the
`capacity` or `demand` fields — two data values that agree on every other
field (with demand vectors of equal length) yield identical models. -/
theorem C9_capacity_demand_unused (d₁ d₂ : ProblemData)
    (h1 : d₁.num_vehicles = d₂.num_vehicles) (h2 : d₁.num_locations = d₂.num_locations)
    (h3 : d₁.edge_weights = d₂.edge_weights) (h4 : d₁.service_time = d₂.service_time)
    (h5 : d₁.time_windows = d₂.time_windows) (h6 : d₁.demand.length = d₂.demand.length) :
    vehicle_routing_problem_time_windows d₁ = vehicle_routing_problem_time_windows d₂ := by
  cases d₁
  cases d₂
  dsimp only at h1 h2 h3 h4 h5
  subst h1
  subst h2
  subst h3
  subst h4
  subst h5
  rfl

/-- C9 witness: two concrete data values differing only in capacity and
demand entries produce the same model. -/
theorem C9_witness :
    vehicle_routing_problem_time_windows exData
      = vehicle_routing_problem_time_windows
          { exData with capacity := 7, demand := [3, 4] } :=
  C9_capacity_demand_unused exData { exData with capacity := 7, demand := [3, 4] }
    rfl rfl rfl rfl rfl (by decide)

/-- Characterization of a successful `instance2data` run. -/
theorem instance2data_ok {inst : RawInstance} {d : ProblemData}
    (hok : instance2data inst = Except.ok d) :
    d = { num_vehicles := inst.vehicles
          capacity := inst.capacity
          num_locations := inst.demand.length + 1
          edge_weights := (distance_matrix_pre inst).map (List.map (fun x => ⌊x * 10⌋))
          service_time := inst.service_time.map (· * 10)
          time_windows := inst.time_window.map (fun tw => (tw.1 * 10, tw.2 * 10))
          demand := inst.demand } := by
  simp only [instance2data] at hok
  split at hok
  · cases hok
  · split at hok
    · cases hok
    · cases hok
      rfl

/-- Model construction succeeds whenever every client index is in bounds
for the `service_time` and `time_windows` vectors. -/
theorem build_isSome_of_bounds (d : ProblemData)
    (h1 : ∀ c ∈ d.clients, c < d.service_time.length)
    (h2 : ∀ c ∈ d.clients, c < d.time_windows.length) :
    (vehicle_routing_problem_time_windows d).isSome = true := by
  have hvis : (create_visit_variables d).isSome = true := by
    apply mapM_isSome
    intro c hc
    cases hst : d.service_time.get? c with
    | none =>
      exfalso
      have := List.get?_eq_none.1 hst
      have := h1 c hc
      omega
    | some st =>
      cases htw : d.time_windows.get? c with
      | none =>
        exfalso
        have := List.get?_eq_none.1 htw
        have := h2 c hc
        omega
      | some tw => simp [bind, Option.bind, hst, htw]
  have hobj : (minimize_total_travel_time d).isSome = true := by
    unfold minimize_total_travel_time
    have hsts : (d.clients.mapM (fun i => d.service_time.get? i)).isSome = true := by
      apply mapM_isSome
      intro c hc
      cases hst : d.service_time.get? c with
      | none =>
        exfalso
        have := List.get?_eq_none.1 hst
        have := h1 c hc
        omega
      | some st => rfl
    obtain ⟨sts, hsts'⟩ := Option.isSome_iff_exists.1 hsts
    rw [hsts']
    rfl
  obtain ⟨visits, hvis'⟩ := Option.isSome_iff_exists.1 hvis
  obtain ⟨obj, hobj'⟩ := Option.isSome_iff_exists.1 hobj
  unfold vehicle_routing_problem_time_windows
  rw [hvis', hobj']
  rfl

/-- A raw instance is valid when its per-location vectors have the same
length as its demand vector (as in the Solomon files the program reads). -/
def RawInstance.Valid (inst : RawInstance) : Prop :=
  inst.service_time.length = inst.demand.length
  ∧ inst.time_window.length = inst.demand.length

/-- C10: for data produced by `instance2data` from a valid raw instance,
`service_time` and `time_windows` have length `num_locations - 1`, every
client index used during model construction is in bounds for them, and
model construction succeeds (no access fails). -/
theorem C10_client_accesses_in_bounds (inst : RawInstance) (d : ProblemData)
    (hok : instance2data inst = Except.ok d) (hv : inst.Valid) :
    d.service_time.length = d.num_locations - 1
    ∧ d.time_windows.length = d.num_locations - 1
    ∧ (∀ c ∈ d.clients, c < d.service_time.length ∧ c < d.time_windows.length)
    ∧ (vehicle_routing_problem_time_windows d).isSome = true := by
  have hd := instance2data_ok hok
  obtain ⟨hv1, hv2⟩ := hv
  have hst : d.service_time = inst.service_time.map (· * 10) := by rw [hd]
  have htw : d.time_windows = inst.time_window.map (fun tw => (tw.1 * 10, tw.2 * 10)) := by
    rw [hd]
  have hnl : d.num_locations = inst.demand.length + 1 := by rw [hd]
  have hlen1 : d.service_time.length = inst.demand.length := by
    rw [hst, List.length_map, hv1]
  have hlen2 : d.time_windows.length = inst.demand.length := by
    rw [htw, List.length_map, hv2]
  have hbound : ∀ c ∈ d.clients, c < inst.demand.length := by
    intro c hc
    have := mem_clients.1 hc
    omega
  refine ⟨by omega, by omega, ?_, ?_⟩
  · intro c hc
    exact ⟨by rw [hlen1]; exact hbound c hc, by rw [hlen2]; exact hbound c hc⟩
  · exact build_isSome_of_bounds d
      (fun c hc => by rw [hlen1]; exact hbound c hc)
      (fun c hc => by rw [hlen2]; exact hbound c hc)

/-- A concrete valid raw instance. -/
def exRaw : RawInstance where
  demand := [0, 1]
  edge_weight := [[0, 1], [1, 0]]
  service_time := [0, 2]
  time_window := [(0, 10), (0, 10)]
  vehicles := 1
  capacity := 100

/-- The `ProblemData` produced from `exRaw`. -/
def exRawData : ProblemData where
  num_vehicles := 1
  capacity := 100
  num_locations := 3
  edge_weights := [[0, 10, 0], [10, 0, 10], [0, 10, 0]]
  service_time := [0, 20]
  time_windows := [(0, 100), (0, 100)]
  demand := [0, 1]

/-- C10 witness: the theorem applied to the concrete raw instance. -/
theorem C10_witness :
    exRawData.service_time.length = exRawData.num_locations - 1
    ∧ exRawData.time_windows.length = exRawData.num_locations - 1
    ∧ (∀ c ∈ exRawData.clients,
        c < exRawData.service_time.length ∧ c < exRawData.time_windows.length)
    ∧ (vehicle_routing_problem_time_windows exRawData).isSome = true :=
  C10_client_accesses_in_bounds exRaw exRawData
    (by with_unfolding_all rfl) ⟨rfl, rfl⟩

/-- Telescoping bound along a chain of non-overlapping intervals:
the start of the first interval plus the total length is at most the end
of the last interval. -/
theorem chain_telescope {α : Type} {f g : α → ℚ} :
    ∀ (l : List α), List.Chain' (fun p q => g p ≤ f q) l →
      ∀ x y, l.head? = some x → l.getLast? = some y →
        f x + (l.map (fun v => g v - f v)).sum ≤ g y
  | [], _, x, _, hx, _ => by cases hx
  | [z], _, x, y, hx, hy => by
    simp only [List.head?_cons, Option.some.injEq] at hx
    simp only [List.getLast?_singleton, Option.some.injEq] at hy
    subst hx
    subst hy
    simp only [List.map_cons, List.map_nil, List.sum_cons, List.sum_nil]
    linarith
  | z :: w :: t, hch, x, y, hx, hy => by
    rw [List.chain'_cons] at hch
    simp only [List.head?_cons, Option.some.injEq] at hx
    subst hx
    rw [List.getLast?_cons_cons] at hy
    have ih := chain_telescope (w :: t) hch.2 w y rfl hy
    simp only [List.map_cons, List.sum_cons] at ih ⊢
    have hzw := hch.1
    linarith

theorem sum_map_add {α : Type} (f g : α → ℚ) : ∀ (l : List α),
    (l.map (fun x => f x + g x)).sum = (l.map f).sum + (l.map g).sum
  | [] => by simp
  | x :: t => by
    simp only [List.map_cons, List.sum_cons, sum_map_add f g t]
    ring

theorem sum_comm_list {α β : Type} (F : α → β → ℚ) : ∀ (l₁ : List α) (l₂ : List β),
    (l₁.map (fun x => (l₂.map (F x)).sum)).sum
      = (l₂.map (fun y => (l₁.map (fun x => F x y)).sum)).sum
  | [], l₂ => by
    simp only [List.map_nil, List.sum_nil]
    rw [eq_comm]
    exact List.sum_eq_zero (by simp)
  | x :: t, l₂ => by
    simp only [List.map_cons, List.sum_cons, sum_comm_list F t l₂]
    rw [← sum_map_add]

theorem sum_filter_ite {α : Type} (f : α → ℚ) (p : α → Bool) : ∀ (l : List α),
    ((l.filter p).map f).sum = (l.map (fun x => if p x = true then f x else 0)).sum
  | [] => rfl
  | x :: t => by
    by_cases hx : p x = true
    · simp [List.filter_cons, hx, sum_filter_ite f p t]
    · simp [List.filter_cons, hx, sum_filter_ite f p t]

theorem sum_ite_unique (v : ℚ) : ∀ (l : List ℕ), l.Nodup → ∀ p : ℕ → Bool, ∀ k₀, k₀ ∈ l →
    (∀ k ∈ l, (p k = true ↔ k = k₀)) →
    (l.map (fun k => if p k = true then v else 0)).sum = v
  | [], _, _, _, hk, _ => by cases hk
  | x :: t, hnd, p, k₀, hk, hp => by
    rw [List.nodup_cons] at hnd
    simp only [List.map_cons, List.sum_cons]
    rcases List.mem_cons.1 hk with heq | hk'
    · have hx : p x = true := (hp x (List.mem_cons_self _ _)).2 heq.symm
      rw [if_pos hx]
      have htz : (t.map (fun k => if p k = true then v else 0)).sum = 0 := by
        apply List.sum_eq_zero
        intro y hy
        obtain ⟨k, hkt, hky⟩ := List.mem_map.1 hy
        have hne : k ≠ x := fun h => hnd.1 (h ▸ hkt)
        have hpk : p k ≠ true := fun h =>
          hne (((hp k (List.mem_cons_of_mem _ hkt)).1 h).trans heq)
        rw [if_neg hpk] at hky
        exact hky.symm
      rw [htz]
      ring
    · have hne : x ≠ k₀ := fun h => hnd.1 (h ▸ hk')
      have hx : p x ≠ true := fun h => hne ((hp x (List.mem_cons_self _ _)).1 h)
      rw [if_neg hx]
      rw [sum_ite_unique v t hnd.2 p k₀ hk'
        (fun k hkt => hp k (List.mem_cons_of_mem _ hkt))]
      ring

theorem clients_sublist_locations (d : ProblemData) : d.clients.Sublist d.locations := by
  unfold ProblemData.clients ProblemData.locations
  rw [List.range_eq_range']
  rcases Nat.eq_zero_or_pos d.num_locations with h0 | hpos
  · rw [h0]
    simp
  · have h1 : List.range' 0 d.num_locations = 0 :: List.range' 1 (d.num_locations - 1) := by
      have h2 := List.range'_succ 0 (d.num_locations - 1) 1
      rw [Nat.sub_add_cancel hpos] at h2
      simpa using h2
    rw [h1]
    exact List.Sublist.trans (List.range'_sublist_right.2 (by omega))
      (List.sublist_cons_self 0 _)

theorem forall₂_getD_eq {l : List ℕ} {ys : List ℚ} {f : ℕ → Option ℚ}
    (h : List.Forall₂ (fun x y => f x = some y) l ys) :
    ys = l.map (fun x => (f x).getD 0) := by
  induction h with
  | nil => rfl
  | cons hr _ ih =>
    rw [List.map_cons, hr]
    simp only [Option.getD_some]
    rw [ih]

/-- Per-vehicle lower bound: the end time of a vehicle's end-depot visit
dominates the total service time of the clients whose optional interval is
present on that vehicle. -/
theorem vehicle_route_end_bound {d : ProblemData} {m : CpoModel} {a : Assignment}
    (hm : vehicle_routing_problem_time_windows d = some m) (hf : feasible m a = true)
    {k : ℕ} (hk : k ∈ d.vehicles) :
    ((d.clients.filter (fun c => (a.itv (VarId.vvisit k c)).isSome)).map
        (fun c => (d.service_time.get? c).getD 0)).sum
      ≤ endOf a (VarId.vvisit k (d.num_locations - 1)) := by
  obtain ⟨hperm, hwf⟩ := seq_elem_wf hm hf hk
  have hca := fun {c} (hc : c ∈ d.clients) => client_assignment hm hf hc
  obtain ⟨visits, obj, hv, ho, hmEq⟩ := build_eq hm
  subst hmEq
  have m2 : Constraint.presenceEq1 (VarId.vvisit k (d.num_locations - 1))
      ∈ no_overlap_between_visits d ++ routes_start_and_end_at_depot d
        ++ assign_each_client_to_one_vehicle d := by
    simp only [List.mem_append]
    exact Or.inl (Or.inr (depot_con_mem hk (by simp)))
  have m4 : Constraint.last (route_var d k) (VarId.vvisit k (d.num_locations - 1))
      ∈ no_overlap_between_visits d ++ routes_start_and_end_at_depot d
        ++ assign_each_client_to_one_vehicle d := by
    simp only [List.mem_append]
    exact Or.inl (Or.inr (depot_con_mem hk (by simp)))
  have mno : Constraint.noOverlap (route_var d k) d.edge_weights
      ∈ no_overlap_between_visits d ++ routes_start_and_end_at_depot d
        ++ assign_each_client_to_one_vehicle d := by
    simp only [List.mem_append]
    refine Or.inl (Or.inl ?_)
    unfold no_overlap_between_visits
    exact List.mem_map_of_mem _ hk
  have hpres := conSat_presence (feasible_con hf m2)
  have hlastq0 := conSat_getLast (feasible_con hf m4) hpres
  have hlastq : (a.seq k).getLast? = some (VarId.vvisit k (d.num_locations - 1)) := hlastq0
  have hchain : List.Chain' (fun p q => endOf a p ≤ startOf a q) (a.seq k) :=
    ((conSat_noOverlap (feasible_con hf mno)).imp (fun h => h.1)).chain'
  -- telescoping along the route: total duration is below the end-depot end
  have hseqsum : ((a.seq k).map (fun v => endOf a v - startOf a v)).sum
      ≤ endOf a (VarId.vvisit k (d.num_locations - 1)) := by
    cases hl : a.seq k with
    | nil => rw [hl] at hlastq; cases hlastq
    | cons x t =>
      rw [hl] at hlastq hchain
      have htel := chain_telescope (f := startOf a) (g := endOf a) (x :: t) hchain
        x (VarId.vvisit k (d.num_locations - 1)) rfl hlastq
      have hx0 : 0 ≤ startOf a x := by
        obtain ⟨i, hxi, hi, I, hI, h0, hwfI⟩ := hwf x (by rw [hl]; exact List.mem_cons_self _ _)
        unfold startOf
        rw [hI]
        exact h0
      linarith
  -- rewrite the route sum as a sum over present locations
  have hS1 : ((a.seq k).map (fun v => endOf a v - startOf a v)).sum
      = ((d.locations.filter (fun i => (a.itv (VarId.vvisit k i)).isSome)).map
          (fun i => endOf a (VarId.vvisit k i) - startOf a (VarId.vvisit k i))).sum := by
    have h1 := (hperm.map (fun v => endOf a v - startOf a v)).sum_eq
    rw [h1]
    unfold route_var
    rw [List.filter_map, List.map_map]
    rfl
  -- nonnegativity of every present duration on this route
  have hnn : ∀ x ∈ (d.locations.filter
      (fun i => (a.itv (VarId.vvisit k i)).isSome)).map
        (fun i => endOf a (VarId.vvisit k i) - startOf a (VarId.vvisit k i)), 0 ≤ x := by
    intro x hx
    obtain ⟨i, hif, hix⟩ := List.mem_map.1 hx
    obtain ⟨hil, hip⟩ := List.mem_filter.1 hif
    obtain ⟨I, hI⟩ := Option.isSome_iff_exists.1 hip
    have hds := feasible_interval hf
      (List.mem_append_right visits (vvisit_decl_mem hk hil))
    have hprops := declSat_some hds hI
    rw [← hix]
    unfold endOf startOf
    rw [hI]
    simp only [Option.getD_some]
    linarith [hprops.2.1]
  -- restrict to client locations
  have hsub : ((d.clients.filter (fun i => (a.itv (VarId.vvisit k i)).isSome)).map
        (fun i => endOf a (VarId.vvisit k i) - startOf a (VarId.vvisit k i))).sum
      ≤ ((d.locations.filter (fun i => (a.itv (VarId.vvisit k i)).isSome)).map
          (fun i => endOf a (VarId.vvisit k i) - startOf a (VarId.vvisit k i))).sum :=
    List.Sublist.sum_le_sum
      (((clients_sublist_locations d).filter _).map _) hnn
  -- on present clients the duration is exactly the service time
  have hdur : ((d.clients.filter (fun i => (a.itv (VarId.vvisit k i)).isSome)).map
        (fun i => endOf a (VarId.vvisit k i) - startOf a (VarId.vvisit k i)))
      = ((d.clients.filter (fun i => (a.itv (VarId.vvisit k i)).isSome)).map
          (fun c => (d.service_time.get? c).getD 0)) := by
    apply List.map_congr_left
    intro c hcf
    obtain ⟨hcc, hcp⟩ := List.mem_filter.1 hcf
    obtain ⟨I, k₀, hIv, hsize, hk₀, hk₀I, huniq⟩ := hca hcc
    have hkk : k = k₀ := by
      by_contra hne
      rw [huniq k hk hne] at hcp
      cases hcp
    subst hkk
    obtain ⟨st, tw, hst, htw, _⟩ := visit_decl_spec hv hcc
    unfold endOf startOf
    rw [hk₀I]
    simp only [Option.getD_some]
    rw [hst]
    simp only [Option.getD_some]
    have := hsize st hst
    linarith
  calc ((d.clients.filter (fun c => (a.itv (VarId.vvisit k c)).isSome)).map
        (fun c => (d.service_time.get? c).getD 0)).sum
      = ((d.clients.filter (fun i => (a.itv (VarId.vvisit k i)).isSome)).map
          (fun i => endOf a (VarId.vvisit k i) - startOf a (VarId.vvisit k i))).sum := by
        rw [hdur]
    _ ≤ ((d.locations.filter (fun i => (a.itv (VarId.vvisit k i)).isSome)).map
          (fun i => endOf a (VarId.vvisit k i) - startOf a (VarId.vvisit k i))).sum := hsub
    _ = ((a.seq k).map (fun v => endOf a v - startOf a v)).sum := hS1.symm
    _ ≤ endOf a (VarId.vvisit k (d.num_locations - 1)) := hseqsum

/-- C4: the built model minimizes the sum over vehicles of the end time of
the end-depot interval minus the sum over clients of their service times,
and this objective value is nonnegative under every feasible assignment. -/
theorem C4_objective_travel_time_nonneg (d : ProblemData) (m : CpoModel)
    (hm : vehicle_routing_problem_time_windows d = some m) :
    m.objective.end_of_vars
        = d.vehicles.map (fun k => VarId.vvisit k (d.num_locations - 1))
    ∧ m.objective.service_times
        = d.clients.map (fun c => (d.service_time.get? c).getD 0)
    ∧ (∀ a : Assignment, objValue m a
        = (d.vehicles.map (fun k => endOf a (VarId.vvisit k (d.num_locations - 1)))).sum
          - (d.clients.map (fun c => (d.service_time.get? c).getD 0)).sum)
    ∧ (∀ a : Assignment, feasible m a = true → 0 ≤ objValue m a) := by
  obtain ⟨visits, obj, hv, ho, hmEq⟩ := build_eq hm
  have hmobj : m.objective = obj := by rw [hmEq]
  have hobj : obj.end_of_vars
        = d.vehicles.map (fun k => VarId.vvisit k (d.num_locations - 1))
      ∧ obj.service_times = d.clients.map (fun c => (d.service_time.get? c).getD 0) := by
    unfold minimize_total_travel_time at ho
    cases hsts : d.clients.mapM (fun i => d.service_time.get? i) with
    | none => rw [hsts] at ho; simp [bind, Option.bind] at ho
    | some sts =>
      rw [hsts] at ho
      simp only [bind, Option.bind, pure, Option.some.injEq] at ho
      have hstseq := forall₂_getD_eq (mapM_eq_some_forall₂ hsts)
      rw [← ho]
      exact ⟨rfl, hstseq.symm ▸ rfl⟩
  have hval : ∀ a : Assignment, objValue m a
      = (d.vehicles.map (fun k => endOf a (VarId.vvisit k (d.num_locations - 1)))).sum
        - (d.clients.map (fun c => (d.service_time.get? c).getD 0)).sum := by
    intro a
    unfold objValue
    rw [hmobj, hobj.1, hobj.2, List.map_map]
    rfl
  refine ⟨hmobj ▸ hobj.1, hmobj ▸ hobj.2, hval, ?_⟩
  intro a hf
  rw [hval a]
  have hperk : ∀ k ∈ d.vehicles,
      ((d.clients.filter (fun c => (a.itv (VarId.vvisit k c)).isSome)).map
          (fun c => (d.service_time.get? c).getD 0)).sum
        ≤ endOf a (VarId.vvisit k (d.num_locations - 1)) :=
    fun k hk => vehicle_route_end_bound hm hf hk
  -- accounting: each client is served by exactly one vehicle
  have hacc : (d.clients.map (fun c => (d.service_time.get? c).getD 0)).sum
      = (d.vehicles.map (fun k =>
          ((d.clients.filter (fun c => (a.itv (VarId.vvisit k c)).isSome)).map
            (fun c => (d.service_time.get? c).getD 0)).sum)).sum := by
    have h1 : (d.vehicles.map (fun k =>
        ((d.clients.filter (fun c => (a.itv (VarId.vvisit k c)).isSome)).map
          (fun c => (d.service_time.get? c).getD 0)).sum)).sum
        = (d.vehicles.map (fun k =>
            (d.clients.map (fun c =>
              if (a.itv (VarId.vvisit k c)).isSome = true
              then (d.service_time.get? c).getD 0 else 0)).sum)).sum := by
      apply congrArg
      apply List.map_congr_left
      intro k _
      exact sum_filter_ite _ _ _
    have h2 : (d.vehicles.map (fun k =>
        (d.clients.map (fun c =>
          if (a.itv (VarId.vvisit k c)).isSome = true
          then (d.service_time.get? c).getD 0 else 0)).sum)).sum
        = (d.clients.map (fun c =>
            (d.vehicles.map (fun k =>
              if (a.itv (VarId.vvisit k c)).isSome = true
              then (d.service_time.get? c).getD 0 else 0)).sum)).sum :=
      sum_comm_list _ d.vehicles d.clients
    have h3 : (d.clients.map (fun c =>
        (d.vehicles.map (fun k =>
          if (a.itv (VarId.vvisit k c)).isSome = true
          then (d.service_time.get? c).getD 0 else 0)).sum)).sum
        = (d.clients.map (fun c => (d.service_time.get? c).getD 0)).sum := by
      apply congrArg
      apply List.map_congr_left
      intro c hc
      obtain ⟨I, k₀, hIv, hsize, hk₀, hk₀I, huniq⟩ := client_assignment hm hf hc
      refine sum_ite_unique _ _ (List.nodup_range _) _ k₀ hk₀ ?_
      intro k hkv
      constructor
      · intro hpk
        by_contra hne
        rw [huniq k hkv hne] at hpk
        cases hpk
      · intro hkk
        subst hkk
        rw [hk₀I]
        rfl
    rw [h1, h2, h3]
  have hsum_le : (d.vehicles.map (fun k =>
      ((d.clients.filter (fun c => (a.itv (VarId.vvisit k c)).isSome)).map
        (fun c => (d.service_time.get? c).getD 0)).sum)).sum
      ≤ (d.vehicles.map (fun k =>
          endOf a (VarId.vvisit k (d.num_locations - 1)))).sum :=
    List.sum_le_sum hperk
  linarith [hacc, hsum_le]

/-- C4 witness: the theorem applied to the concrete example instance. -/
theorem C4_witness :
    exModel.objective.end_of_vars
        = exData.vehicles.map (fun k => VarId.vvisit k (exData.num_locations - 1))
    ∧ exModel.objective.service_times
        = exData.clients.map (fun c => (exData.service_time.get? c).getD 0)
    ∧ (∀ a : Assignment, objValue exModel a
        = (exData.vehicles.map (fun k =>
            endOf a (VarId.vvisit k (exData.num_locations - 1)))).sum
          - (exData.clients.map (fun c => (exData.service_time.get? c).getD 0)).sum)
    ∧ (∀ a : Assignment, feasible exModel a = true → 0 ≤ objValue exModel a) :=
  C4_objective_travel_time_nonneg exData exModel (by with_unfolding_all rfl)

/-! ## Claims about `instance2data` -/

theorem mEntry_grid (f : ℕ → ℕ → ℚ) {nr nc i j : ℕ} (hi : i < nr) (hj : j < nc) :
    mEntry ((List.range nr).map (fun i => (List.range nc).map (f i))) i j = f i j := by
  unfold mEntry
  simp only [List.get?_eq_getElem?, List.getElem?_map, List.getElem?_range hi,
    List.getElem?_range hj, Option.map_some', Option.getD_some]

theorem matAt_scaled_grid (g : ℕ → ℕ → ℚ) {nr nc i j : ℕ} (hi : i < nr) (hj : j < nc) :
    matAt (((List.range nr).map (fun i => (List.range nc).map (g i))).map
        (List.map (fun x => ⌊x * 10⌋))) i j = ⌊g i j * 10⌋ := by
  unfold matAt
  simp only [List.map_map, List.get?_eq_getElem?, List.getElem?_map,
    List.getElem?_range hi, List.getElem?_range hj, Option.map_some', Option.getD_some,
    Function.comp_apply]

/-- The scaled matrix entry of the data produced by `instance2data` is the
floored, 10-scaled entry of the pre-scaling mirrored matrix. -/
theorem edge_weights_entry (inst : RawInstance) {i j : ℕ}
    (hi : i < inst.demand.length + 1) (hj : j < inst.demand.length + 1) :
    matAt ((distance_matrix_pre inst).map (List.map (fun x => ⌊x * 10⌋))) i j
      = ⌊(mEntry (distance_matrix_pre inst) i j) * 10⌋ := by
  unfold distance_matrix_pre
  rw [matAt_scaled_grid _ hi hj, mEntry_grid _ hi hj]

/-- The mirrored pre-scaling matrix repeats row 0 in row `n` and column 0
in column `n`, for indices below `n`. -/
theorem dm_pre_mirror (inst : RawInstance) {i : ℕ} (hi : i < inst.demand.length) :
    mEntry (distance_matrix_pre inst) inst.demand.length i
        = mEntry (distance_matrix_pre inst) 0 i
    ∧ mEntry (distance_matrix_pre inst) i inst.demand.length
        = mEntry (distance_matrix_pre inst) i 0 := by
  have hn : 0 < inst.demand.length := by omega
  have e1 := mEntry_grid (fun i j =>
      if i < inst.demand.length ∧ j < inst.demand.length then mEntry inst.edge_weight i j
      else if i = inst.demand.length ∧ j < inst.demand.length then mEntry inst.edge_weight 0 j
      else if j = inst.demand.length ∧ i < inst.demand.length then mEntry inst.edge_weight i 0
      else 0)
    (show inst.demand.length < inst.demand.length + 1 by omega)
    (show i < inst.demand.length + 1 by omega)
  have e2 := mEntry_grid (fun i j =>
      if i < inst.demand.length ∧ j < inst.demand.length then mEntry inst.edge_weight i j
      else if i = inst.demand.length ∧ j < inst.demand.length then mEntry inst.edge_weight 0 j
      else if j = inst.demand.length ∧ i < inst.demand.length then mEntry inst.edge_weight i 0
      else 0)
    (show (0:ℕ) < inst.demand.length + 1 by omega)
    (show i < inst.demand.length + 1 by omega)
  have e3 := mEntry_grid (fun i j =>
      if i < inst.demand.length ∧ j < inst.demand.length then mEntry inst.edge_weight i j
      else if i = inst.demand.length ∧ j < inst.demand.length then mEntry inst.edge_weight 0 j
      else if j = inst.demand.length ∧ i < inst.demand.length then mEntry inst.edge_weight i 0
      else 0)
    (show i < inst.demand.length + 1 by omega)
    (show inst.demand.length < inst.demand.length + 1 by omega)
  have e4 := mEntry_grid (fun i j =>
      if i < inst.demand.length ∧ j < inst.demand.length then mEntry inst.edge_weight i j
      else if i = inst.demand.length ∧ j < inst.demand.length then mEntry inst.edge_weight 0 j
      else if j = inst.demand.length ∧ i < inst.demand.length then mEntry inst.edge_weight i 0
      else 0)
    (show i < inst.demand.length + 1 by omega)
    (show (0:ℕ) < inst.demand.length + 1 by omega)
  constructor
  · show mEntry (distance_matrix_pre inst) inst.demand.length i
        = mEntry (distance_matrix_pre inst) 0 i
    unfold distance_matrix_pre
    rw [e1, e2]
    dsimp only
    rw [if_neg (show ¬(inst.demand.length < inst.demand.length ∧ i < inst.demand.length)
        from by omega),
      if_pos (show inst.demand.length = inst.demand.length ∧ i < inst.demand.length
        from ⟨rfl, hi⟩),
      if_pos (show 0 < inst.demand.length ∧ i < inst.demand.length from ⟨hn, hi⟩)]
  · show mEntry (distance_matrix_pre inst) i inst.demand.length
        = mEntry (distance_matrix_pre inst) i 0
    unfold distance_matrix_pre
    rw [e3, e4]
    dsimp only
    rw [if_neg (show ¬(i < inst.demand.length ∧ inst.demand.length < inst.demand.length)
        from by omega),
      if_neg (show ¬(i = inst.demand.length ∧ inst.demand.length < inst.demand.length)
        from by omega),
      if_pos (show inst.demand.length = inst.demand.length ∧ i < inst.demand.length
        from ⟨rfl, hi⟩),
      if_pos (show i < inst.demand.length ∧ 0 < inst.demand.length from ⟨hi, hn⟩)]

/-- C5 counterexample data: a one-client instance with nonzero
depot-to-depot distance entry `edge_weight[0][0] = 5`. -/
def ex5 : RawInstance where
  demand := [1]
  edge_weight := [[5]]
  service_time := [0]
  time_window := [(0, 10)]
  vehicles := 1
  capacity := 1

/-- The data produced from `ex5`. -/
def ex5Data : ProblemData where
  num_vehicles := 1
  capacity := 1
  num_locations := 2
  edge_weights := [[50, 50], [50, 0]]
  service_time := [0]
  time_windows := [(0, 100)]
  demand := [1]

/-- C5 counterexample: with `i` ranging over all locations including the
end-depot index itself, the depot-mirroring equalities fail: at
`i = last`, `edge_weights[last][last] = 0` but `edge_weights[0][last] = 50`. -/
theorem C5_counterexample :
    instance2data ex5 = Except.ok ex5Data
    ∧ ¬ (∀ i < ex5Data.num_locations,
        matAt ex5Data.edge_weights (ex5Data.num_locations - 1) i
          = matAt ex5Data.edge_weights 0 i
        ∧ matAt ex5Data.edge_weights i (ex5Data.num_locations - 1)
          = matAt ex5Data.edge_weights i 0) :=
  ⟨by with_unfolding_all rfl, by with_unfolding_all decide⟩

/-- C5 (amended): the depot-mirroring equalities hold for every index
`i < num_locations - 1`, i.e. for every index other than the end depot
itself. -/
theorem C5_depot_mirroring (inst : RawInstance) (d : ProblemData)
    (hok : instance2data inst = Except.ok d) (i : ℕ) (hi : i < d.num_locations - 1) :
    matAt d.edge_weights (d.num_locations - 1) i = matAt d.edge_weights 0 i
    ∧ matAt d.edge_weights i (d.num_locations - 1) = matAt d.edge_weights i 0 := by
  have hd := instance2data_ok hok
  subst hd
  simp only at hi ⊢
  have hi' : i < inst.demand.length := by omega
  have hm := dm_pre_mirror inst hi'
  constructor
  · rw [edge_weights_entry inst (by omega) (by omega),
      edge_weights_entry inst (by omega) (by omega)]
    rw [Nat.add_sub_cancel, hm.1]
  · rw [edge_weights_entry inst (by omega) (by omega),
      edge_weights_entry inst (by omega) (by omega)]
    rw [Nat.add_sub_cancel, hm.2]

/-- C5 witness: the amended theorem applied at the concrete instance. -/
theorem C5_witness :
    matAt ex5Data.edge_weights (ex5Data.num_locations - 1) 0
        = matAt ex5Data.edge_weights 0 0
    ∧ matAt ex5Data.edge_weights 0 (ex5Data.num_locations - 1)
        = matAt ex5Data.edge_weights 0 0 :=
  C5_depot_mirroring ex5 ex5Data (by with_unfolding_all rfl) 0 (by decide)

/-- C6 counterexample data: a client service time of 1/2 (a representable
float in the real program). -/
def ex6 : RawInstance where
  demand := [1]
  edge_weight := [[0]]
  service_time := [1/2]
  time_window := [(0, 1)]
  vehicles := 1
  capacity := 1

/-- The data produced from `ex6`: the service time 1/2 becomes 5, an
integer. -/
def ex6Data : ProblemData where
  num_vehicles := 1
  capacity := 1
  num_locations := 2
  edge_weights := [[0, 0], [0, 0]]
  service_time := [5]
  time_windows := [(0, 10)]
  demand := [1]

/-- C6 counterexample: the fractional input service time 1/2 does not stay
fractional after the times-10 scaling — the output entry is the integer 5. -/
theorem C6_counterexample :
    instance2data ex6 = Except.ok ex6Data
    ∧ ((1 : ℚ)/2).den ≠ 1
    ∧ ex6Data.service_time = [(5 : ℚ)]
    ∧ ((5 : ℚ)).den = 1 :=
  ⟨by with_unfolding_all rfl, by with_unfolding_all decide, rfl, by decide⟩

/-- Scaling by 10 turns a rational into an integer exactly when its
denominator divides 10; so a fractional value with denominator not
dividing 10 stays fractional. -/
theorem mul_ten_den_ne_one {x : ℚ} (hnd : ¬ (x.den : ℤ) ∣ 10) : (x * 10).den ≠ 1 := by
  intro h1
  apply hnd
  have h2 : ((x * 10).num : ℚ) = x * 10 := (Rat.den_eq_one_iff _).1 h1
  have h4 := Rat.den_dvd (x * 10).num 10
  have h5 : Rat.divInt (x * 10).num (10 : ℤ) = x := by
    rw [Rat.divInt_eq_div, h2]
    push_cast
    ring
  rw [h5] at h4
  exact h4

/-- C6 (amended): every output `edge_weights` entry is the floor of 10
times its pre-scaling value; `service_time` and `time_windows` are
multiplied by 10 with no flooring; a fractional input value remains
fractional in the output unless its denominator divides 10 (for example
1/2 becomes the integer 5). -/
theorem C6_scaling_asymmetry (inst : RawInstance) (d : ProblemData)
    (hok : instance2data inst = Except.ok d) :
    (∀ i j, i < d.num_locations → j < d.num_locations →
        matAt d.edge_weights i j = ⌊(mEntry (distance_matrix_pre inst) i j) * 10⌋)
    ∧ d.service_time = inst.service_time.map (· * 10)
    ∧ d.time_windows = inst.time_window.map (fun tw => (tw.1 * 10, tw.2 * 10))
    ∧ (∀ x ∈ inst.service_time, ¬ (x.den : ℤ) ∣ 10 →
        ∃ y ∈ d.service_time, y = x * 10 ∧ y.den ≠ 1) := by
  have hd := instance2data_ok hok
  subst hd
  refine ⟨?_, rfl, rfl, ?_⟩
  · intro i j hi hj
    simp only at hi hj
    exact edge_weights_entry inst hi hj
  · intro x hx hnd
    exact ⟨x * 10, List.mem_map_of_mem _ hx, rfl, mul_ten_den_ne_one hnd⟩

/-- C6 witness: the amended theorem applied at a concrete instance with a
service time of 1/3, whose denominator does not divide 10. -/
def ex6b : RawInstance where
  demand := [1]
  edge_weight := [[0]]
  service_time := [1/3]
  time_window := [(0, 1)]
  vehicles := 1
  capacity := 1

/-- The data produced from `ex6b`. -/
def ex6bData : ProblemData where
  num_vehicles := 1
  capacity := 1
  num_locations := 2
  edge_weights := [[0, 0], [0, 0]]
  service_time := [10/3]
  time_windows := [(0, 10)]
  demand := [1]

/-- C6 witness: the amended theorem applied to the concrete instance. -/
theorem C6_witness :
    (∀ i j, i < ex6bData.num_locations → j < ex6bData.num_locations →
        matAt ex6bData.edge_weights i j = ⌊(mEntry (distance_matrix_pre ex6b) i j) * 10⌋)
    ∧ ex6bData.service_time = ex6b.service_time.map (· * 10)
    ∧ ex6bData.time_windows = ex6b.time_window.map (fun tw => (tw.1 * 10, tw.2 * 10))
    ∧ (∀ x ∈ ex6b.service_time, ¬ (x.den : ℤ) ∣ 10 →
        ∃ y ∈ ex6bData.service_time, y = x * 10 ∧ y.den ≠ 1) :=
  C6_scaling_asymmetry ex6b ex6bData (by with_unfolding_all rfl)

/-- Whether an `Except` value is an error. -/
def isErr : Except String ProblemData → Bool
  | Except.error _ => true
  | Except.ok _ => false

/-- C7 counterexample data: an empty demand vector with a square 1×1
distance matrix whose side does not match the demand length. -/
def ex7 : RawInstance where
  demand := []
  edge_weight := [[5]]
  service_time := []
  time_window := []
  vehicles := 0
  capacity := 0

/-- The data produced from `ex7` — no error is raised. -/
def ex7Data : ProblemData where
  num_vehicles := 0
  capacity := 0
  num_locations := 1
  edge_weights := [[0]]
  service_time := []
  time_windows := []
  demand := []

/-- C7 counterexample: for the empty-demand instance with a 1×1 matrix the
matrix side (1) differs from the demand length (0), yet `instance2data`
succeeds: numpy broadcasts the 1×1 array into the empty block and the
mirror loop never runs. -/
theorem C7_counterexample :
    instance2data ex7 = Except.ok ex7Data
    ∧ ¬ (ex7.edge_weight.length = ex7.demand.length
        ∧ ∀ row ∈ ex7.edge_weight, row.length = ex7.demand.length) :=
  ⟨by with_unfolding_all rfl, by decide⟩

/-- C7 (amended): for every raw instance with a nonempty demand vector
whose edge-weight matrix is not square of side equal to the demand length,
`instance2data` fails with an error and produces no `ProblemData`. -/
theorem C7_mismatched_matrix_rejected (inst : RawInstance)
    (hne : inst.demand ≠ [])
    (hmis : ¬ (inst.edge_weight.length = inst.demand.length
        ∧ ∀ row ∈ inst.edge_weight, row.length = inst.demand.length)) :
    isErr (instance2data inst) = true := by
  have hn : 0 < inst.demand.length := List.length_pos.2 hne
  simp only [instance2data]
  split
  · rfl
  · next hb =>
    split
    · rfl
    · next hloop =>
      exfalso
      rw [not_not] at hb
      obtain ⟨hrect, hr, hc⟩ := hb
      rw [not_not] at hloop
      have hidx := List.all_eq_true.1 hloop (inst.demand.length - 1)
        (List.mem_range.2 (by omega))
      simp only [Bool.and_eq_true, decide_eq_true_eq] at hidx
      obtain ⟨⟨⟨h0r, hic⟩, hir⟩, h0c⟩ := hidx
      have hreq : inst.edge_weight.length = inst.demand.length := by
        rcases hr with hr | hr
        · exact hr
        · omega
      have hceq : matCols inst.edge_weight = inst.demand.length := by
        rcases hc with hc | hc
        · exact hc
        · omega
      apply hmis
      refine ⟨hreq, ?_⟩
      intro row hrow
      have := List.all_eq_true.1 hrect row hrow
      simp only [decide_eq_true_eq] at this
      rw [this, hceq]

/-- C7 witness data: a 2×2 matrix with a demand vector of length 1. -/
def ex7b : RawInstance where
  demand := [1]
  edge_weight := [[0, 1], [1, 0]]
  service_time := [0]
  time_window := [(0, 1)]
  vehicles := 1
  capacity := 1

/-- C7 witness: the amended theorem applied to the concrete instance. -/
theorem C7_witness : isErr (instance2data ex7b) = true :=
  C7_mismatched_matrix_rejected ex7b (by decide) (by decide)

end VRPTW
